import Mathlib

/-!
# Verification of the DevFlow Pro analysis engine

A shallow embedding of the core of `devflow-pro` (a Rust static-analysis
engine) together with proofs about its specified behaviour.  The embedding
follows `src/lib.rs` (metrics calculator, security heuristics, dependency
extraction, project aggregation), `src/analysis/pipeline.rs` (worker pool,
result cache, run statistics), `src/analysis/semantic.rs` (AST complexity)
and `src/ai/llama.rs` (retry loop of the AI client).

Rust standard-library string operations (`str::trim`, `str::lines`,
`str::contains`, `str::split`, ...) are modelled as executable functions on
`List Char`; machine counters are modelled as `Nat` (they only ever grow by
one, far from overflow); `f64` complexity arithmetic is modelled exactly in
`ℚ` (the computation is `branches * 0.1 + 1.0`, whose structure is what the
claims are about).
-/

namespace DevFlow

/-- Decidable equality of `Except` values (used to evaluate concrete
runs). -/
instance {ε α : Type} [DecidableEq ε] [DecidableEq α] :
    DecidableEq (Except ε α) := fun a b =>
  match a, b with
  | .ok x, .ok y =>
    if h : x = y then isTrue (by rw [h]) else isFalse (by simp [h])
  | .error x, .error y =>
    if h : x = y then isTrue (by rw [h]) else isFalse (by simp [h])
  | .ok _, .error _ => isFalse (by simp)
  | .error _, .ok _ => isFalse (by simp)

/-! ## Rust string primitives -/

/-- Models `char::is_whitespace` restricted to the ASCII whitespace characters that
occur in source text (models the Rust Unicode predicate on the ASCII range). -/
def isRustWs (c : Char) : Bool :=
  c = ' ' || c = '\t' || c = '\n' || c = '\r'

/-- Models `str::trim` on a character list. -/
def trimChars (l : List Char) : List Char :=
  ((l.dropWhile isRustWs).reverse.dropWhile isRustWs).reverse

/-- Models `str::trim`. -/
def rustTrim (s : String) : String :=
  String.mk (trimChars s.toList)

/-- Models `str::starts_with` for a string pattern. -/
def rustStartsWith (pre s : String) : Bool :=
  pre.toList.isPrefixOf s.toList

/-- Infix test on character lists (`sub` occurs contiguously in the list). -/
def listIsInfixOf (sub : List Char) : List Char → Bool
  | [] => sub.isEmpty
  | c :: rest => sub.isPrefixOf (c :: rest) || listIsInfixOf sub rest

/-- Models `str::contains` for a string pattern (substring search). -/
def containsSub (sub s : String) : Bool :=
  listIsInfixOf sub.toList s.toList

/-- Models `str::contains` for a `char` pattern. -/
def containsChar (c : Char) (s : String) : Bool :=
  s.toList.contains c

/-- Helper for `rustLines`: split accumulated characters at `'\n'`,
stripping one trailing `'\r'` from each line that ended with `"\r\n"`.
The final line ending is optional, exactly as for Rust `str::lines`. -/
def rustLinesAux : List Char → List Char → List String
  | [], [] => []
  | [], acc => [String.mk acc.reverse]
  | '\n' :: rest, acc =>
    let line := acc.reverse
    let line := if line.getLast? = some '\r' then line.dropLast else line
    String.mk line :: rustLinesAux rest []
  | c :: rest, acc => rustLinesAux rest (c :: acc)

/-- Models `str::lines`. -/
def rustLines (s : String) : List String :=
  rustLinesAux s.toList []

/-! ## Severity and configuration (`src/lib.rs`) -/

/-- Models `IssueSeverity` from `src/lib.rs`; the `derive(PartialOrd)` order is the
declaration order `Low < Medium < High < Critical`. -/
inductive IssueSeverity where
  | Low
  | Medium
  | High
  | Critical
deriving DecidableEq, Repr

/-- Declaration-order rank used to model the derived comparison. -/
def IssueSeverity.rank : IssueSeverity → Nat
  | .Low => 0
  | .Medium => 1
  | .High => 2
  | .Critical => 3

/-- The derived `<=` of `IssueSeverity`. -/
def sevLe (a b : IssueSeverity) : Bool :=
  a.rank ≤ b.rank

/-- Models `SecurityIssue` from `src/lib.rs`. -/
structure SecurityIssue where
  severity : IssueSeverity
  description : String
  line_number : Option Nat
deriving DecidableEq, Repr

/-- Models `AppConfig` from `src/lib.rs`. -/
structure AppConfig where
  max_file_size : Nat
  ignored_patterns : List String
  security_patterns : List String
  min_severity : IssueSeverity
deriving Repr

/-- The `security_patterns` list of `AppConfig::default` in `src/lib.rs`. -/
def defaultSecurityPatterns : List String :=
  ["eval\\s*\\(", "exec\\s*\\(", "system\\s*\\(", "shell_exec\\s*\\(",
   "password\\s*=", "api[_-]?key\\s*=", "secret\\s*=", "token\\s*=",
   "execute\\s*\\(", "raw\\s*sql", "\\.query\\s*\\(",
   "file_get_contents\\s*\\(", "fopen\\s*\\(", "readFile\\s*\\(",
   "unserialize\\s*\\(", "JSON\\.parse\\s*\\(", "fromJson\\s*\\(",
   "innerHTML\\s*=", "document\\.write\\s*\\(", "\\$\\s*\\("]

/-- Models `AppConfig::default` from `src/lib.rs`. -/
def AppConfig.default : AppConfig where
  max_file_size := 1024 * 1024
  ignored_patterns :=
    ["**/target/**", "**/.git/**", "**/.idea/**", "**/.vscode/**",
     "**/.DS_Store", "**/node_modules/**", "**/dist/**", "**/build/**"]
  security_patterns := defaultSecurityPatterns
  min_severity := .Low

/-! ## `check_security_issues` (`src/lib.rs` lines 409-454)

The function iterates over the lines (1-based line numbers), pushes the
hard-coded substring checks for secrets, SQL injection and unsafe execution,
and finally filters by `issue.severity >= config.min_severity`.  The
`security_patterns` field of the configuration is never consulted. -/

/-- The issues the scan loop pushes for a single line. -/
def lineSecurityIssues (lineNum : Nat) (line : String) : List SecurityIssue :=
  (if (containsSub "password" line || containsSub "secret" line
        || containsSub "api_key" line)
      && (containsChar '=' line || containsChar ':' line) then
    [⟨.High,
      "Potential hardcoded secret found at line " ++ toString lineNum ++ ": "
        ++ line, some lineNum⟩]
   else [])
  ++
  (if (containsSub "SELECT" line || containsSub "INSERT" line
        || containsSub "UPDATE" line)
      && (containsChar '"' line || containsChar '\'' line) then
    [⟨.High,
      "Potential SQL injection vulnerability at line " ++ toString lineNum
        ++ ": " ++ line, some lineNum⟩]
   else [])
  ++
  (if containsSub "eval(" line || containsSub "exec(" line then
    [⟨.Critical,
      "Unsafe code execution found at line " ++ toString lineNum ++ ": "
        ++ line, some lineNum⟩]
   else [])

/-- The unfiltered issue list accumulated by the scan loop. -/
def rawSecurityIssues (lines : List String) : List SecurityIssue :=
  (lines.enum).flatMap fun p => lineSecurityIssues (p.1 + 1) p.2

/-- Models `check_security_issues` from `src/lib.rs`. -/
def checkSecurityIssues (lines : List String) (config : AppConfig) :
    List SecurityIssue :=
  (rawSecurityIssues lines).filter fun issue =>
    sevLe config.min_severity issue.severity

/-! ## Further `str` primitives used by `calculate_metrics` -/

/-- Models `str::matches(pat).count()`: number of non-overlapping occurrences of
`needle` in the haystack, scanning left to right.  Structural recursion on
a fuel argument kept at least as large as the haystack (each step consumes
at least one character, so with initial fuel `hay.length` the zero-fuel
case with a non-empty haystack is unreachable). -/
def countOccsF (needle : List Char) : Nat → List Char → Nat
  | _, [] => 0
  | 0, _ :: _ => 0
  | fuel + 1, c :: rest =>
    if needle ≠ [] ∧ needle.isPrefixOf (c :: rest) then
      1 + countOccsF needle fuel (rest.drop (needle.length - 1))
    else
      countOccsF needle fuel rest

/-- Models `str::matches(pat).count()` on character lists. -/
def countOccs (needle hay : List Char) : Nat :=
  countOccsF needle hay.length hay

/-- The branch counter of `calculate_metrics` (`src/lib.rs` lines 293-301):
occurrences of the four branching keywords followed by a space, found by
plain substring search over the whole content. -/
def branchCount (content : String) : Nat :=
  countOccs "if ".toList content.toList
    + countOccs "while ".toList content.toList
    + countOccs "for ".toList content.toList
    + countOccs "match ".toList content.toList

/-- The line-classification loop of `calculate_metrics`
(`src/lib.rs` lines 282-291), returning
`(lines_of_code, blank_lines, comment_lines)`.  Note that the source
increments `lines_of_code` on *every* line, outside the `if`/`else if`. -/
def lineCounts : List String → Nat × Nat × Nat
  | [] => (0, 0, 0)
  | line :: rest =>
    if rustTrim line = "" then
      ((lineCounts rest).1 + 1, (lineCounts rest).2.1 + 1,
        (lineCounts rest).2.2)
    else if rustStartsWith "//" (rustTrim line)
        || rustStartsWith "#" (rustTrim line)
        || rustStartsWith "/*" (rustTrim line) then
      ((lineCounts rest).1 + 1, (lineCounts rest).2.1,
        (lineCounts rest).2.2 + 1)
    else
      ((lineCounts rest).1 + 1, (lineCounts rest).2.1, (lineCounts rest).2.2)

/-- Models `str::split(sep)` for a non-empty string separator (splits at each
non-overlapping occurrence, scanning left to right).  Fuel as in
`countOccsF`: with initial fuel the length of the haystack the zero-fuel
case is unreachable. -/
def splitOnStrF (sep : List Char) :
    Nat → List Char → List Char → List (List Char)
  | _, [], acc => [acc.reverse]
  | 0, l, acc => [acc.reverse ++ l]
  | fuel + 1, c :: rest, acc =>
    if sep ≠ [] ∧ sep.isPrefixOf (c :: rest) then
      acc.reverse :: splitOnStrF sep fuel (rest.drop (sep.length - 1)) []
    else
      splitOnStrF sep fuel rest (c :: acc)

/-- Models `str::split` with a string pattern. -/
def splitOnStr (sep s : String) : List String :=
  (splitOnStrF sep.toList s.toList.length s.toList []).map String.mk

/-- Models `str::split_whitespace`. -/
def splitWsAux : List Char → List Char → List String
  | [], [] => []
  | [], acc => [String.mk acc.reverse]
  | c :: rest, acc =>
    if isRustWs c then
      if acc.isEmpty then splitWsAux rest []
      else String.mk acc.reverse :: splitWsAux rest []
    else splitWsAux rest (c :: acc)

/-- Models `str::split_whitespace` on a string. -/
def splitWs (s : String) : List String :=
  splitWsAux s.toList []

/-- Models `str::trim_matches` with a character-set pattern. -/
def trimMatching (p : Char → Bool) (s : String) : String :=
  String.mk ((s.toList.dropWhile p).reverse.dropWhile p).reverse

/-- Models `s.split(c).next().unwrap()`: the prefix of `s` before the first
occurrence of the character `c` (the whole of `s` if `c` is absent). -/
def firstPieceChar (c : Char) (s : String) : String :=
  String.mk (s.toList.takeWhile fun x => x ≠ c)

/-- Models `s.split(sep).next().unwrap()` for a string separator. -/
def firstPieceStr (sep s : String) : String :=
  (splitOnStr sep s).headD s

/-- Models `str::strip_prefix`. -/
def rustDropPre (pre s : String) : Option String :=
  if rustStartsWith pre s then
    some (String.mk (s.toList.drop pre.toList.length))
  else none

/-! ## `extract_dependencies` (`src/lib.rs` lines 312-373) -/

/-- The dependency (if any) pushed for one line by the scan loop of
`extract_dependencies`, mirroring its `if`/`else if` chain.  (The third
branch is reachable only for `require(` lines and the fourth branch is
unreachable, because lines starting with `import ` are consumed by the
second branch.) -/
def depOfLine (line : String) : Option String :=
  let trimmed := rustTrim line
  if rustStartsWith "use " trimmed then
    (rustDropPre "use " trimmed).map fun s => firstPieceStr "::" s
  else if rustStartsWith "import " trimmed
      || rustStartsWith "from " trimmed then
    ((splitWs trimmed)[1]?).map fun s => firstPieceChar '.' s
  else if rustStartsWith "import " trimmed
      || rustStartsWith "require(" trimmed then
    if containsSub "from " trimmed then
      ((splitOnStr "from " trimmed)[1]?).map fun s =>
        firstPieceChar '/'
          (trimMatching (fun c => c = '\'' || c = '"' || c = ';') s)
    else if containsSub "require(" trimmed then
      ((splitOnStr "require(" trimmed)[1]?).map fun s =>
        firstPieceChar '/'
          (trimMatching (fun c => c = '\'' || c = '"' || c = ')' || c = ';') s)
    else none
  else if rustStartsWith "import (" trimmed
      || rustStartsWith "import \"" trimmed then
    some (firstPieceChar '/'
      (trimMatching (fun c => c = '"' || c = '(' || c = ')') trimmed))
  else none

/-- Models `Vec::dedup` tail: drop elements equal to the running previous kept
element. -/
def dedupConsecAux (prev : String) : List String → List String
  | [] => []
  | b :: rest =>
    if prev = b then dedupConsecAux prev rest
    else b :: dedupConsecAux b rest

/-- Models `Vec::dedup`: remove consecutive duplicate elements, keeping the first
of each run. -/
def dedupConsec : List String → List String
  | [] => []
  | a :: rest => a :: dedupConsecAux a rest

/-- Models `Ord` on `char`s as Rust compares them (by code point; for UTF-8 encoded
strings, byte-wise comparison and code-point-wise comparison agree). -/
def listLexLe : List Char → List Char → Bool
  | [], _ => true
  | _ :: _, [] => false
  | a :: as1, b :: bs1 => if a = b then listLexLe as1 bs1 else decide (a < b)

/-- Models `Ord` on Rust `String`: lexicographic comparison. -/
def strLe (a b : String) : Bool :=
  listLexLe a.toList b.toList

/-- One insertion step of insertion sort with respect to `strLe`. -/
def insertSorted (x : String) : List String → List String
  | [] => [x]
  | y :: rest =>
    if strLe x y then x :: y :: rest else y :: insertSorted x rest

/-- Insertion sort with respect to `strLe`.  `Vec::sort` is a stable sort;
since duplicate strings are equal, every sorted permutation of the input is
the same list, so any sorting algorithm models `Vec::sort` exactly. -/
def insertionSortStr : List String → List String
  | [] => []
  | x :: rest => insertSorted x (insertionSortStr rest)

/-- Models `extract_dependencies` from `src/lib.rs`: collect at most one dependency
per line, then `sort` and `dedup`. -/
def extractDependencies (content : String) : List String :=
  dedupConsec (insertionSortStr ((rustLines content).filterMap depOfLine))

/-! ## `CodeMetrics` and `calculate_metrics` (`src/lib.rs` lines 265-310) -/

/-- The fields of `std::fs::Metadata` the analyzer reads (`len()` and
`modified()`, the latter as an abstract timestamp). -/
structure FileMeta where
  len : Nat
  modified : Nat
deriving Repr, DecidableEq

/-- Models `CodeMetrics` from `src/lib.rs`.  The `complexity : f64` field always
holds `branches * 0.1 + 1.0`, whose exact real value is
`(branches + 10) / 10`; it is stored exactly as its value in tenths
(`complexity_tenths = branches + 10`), abstracting the f64 rounding of
`0.1`, with the rational view `CodeMetrics.complexity` below. -/
structure CodeMetrics where
  lines_of_code : Nat
  blank_lines : Nat
  comment_lines : Nat
  complexity_tenths : Nat
  dependencies : List String
  security_issues : List SecurityIssue
  last_modified : Nat
  size_bytes : Nat
deriving Repr, DecidableEq

/-- The `complexity` field of `CodeMetrics` as the exact rational it
stores. -/
def CodeMetrics.complexity (m : CodeMetrics) : ℚ :=
  (m.complexity_tenths : ℚ) / 10

/-- Models `calculate_metrics` from `src/lib.rs`, given the file metadata (its
two `path.metadata()` calls are modelled by the same pure metadata value).
The complexity is `(branches as f64).mul_add(0.1, 1.0)`. -/
def calculateMetrics (meta : FileMeta) (content : String)
    (config : AppConfig) : CodeMetrics :=
  let lines := rustLines content
  let counts := lineCounts lines
  { lines_of_code := counts.1
    blank_lines := counts.2.1
    comment_lines := counts.2.2
    complexity_tenths := branchCount content + 10
    dependencies := extractDependencies content
    security_issues := checkSecurityIssues lines config
    last_modified := meta.modified
    size_bytes := meta.len }

/-! ## The AST complexity of `src/analysis/semantic.rs` (lines 81-103)

`SemanticAnalyzer::expr_complexity` looks only at the outermost constructor
of each statement-level expression: `if`/`match`/`while`/`for`/`loop` each
count 1 flat (a `match` counts 1 regardless of its number of arms, and the
bodies and arms of conditionals are not visited); only a plain block
expression is recursed into, via `calculate_complexity`, which starts from
a base of 1.  Statements that are not expression statements contribute 0 and
are modelled by `otherExpr`. -/

/-- The fragment of the `syn` expression tree distinguished by
`expr_complexity`. -/
inductive RExpr where
  | ifExpr
  | matchExpr (arms : Nat)
  | whileExpr
  | forLoopExpr
  | loopExpr
  | blockExpr (stmts : List RExpr)
  | otherExpr

mutual

/-- Models `SemanticAnalyzer::expr_complexity`. -/
def exprComplexity : RExpr → Nat
  | .ifExpr => 1
  | .matchExpr _ => 1
  | .whileExpr => 1
  | .forLoopExpr => 1
  | .loopExpr => 1
  | .blockExpr stmts => 1 + stmtsComplexity stmts
  | .otherExpr => 0

/-- Sum of `expr_complexity` over the statements of a block. -/
def stmtsComplexity : List RExpr → Nat
  | [] => 0
  | e :: rest => exprComplexity e + stmtsComplexity rest

end

/-- Models `SemanticAnalyzer::calculate_complexity`: base 1 plus the statement
contributions. -/
def calculateComplexityAst (blockStmts : List RExpr) : Nat :=
  1 + stmtsComplexity blockStmts

/-! ## Ignore patterns and language normalization (`src/lib.rs`) -/

/-- Wildcard matching of one glob pattern against a path, modelling the
`is_match` of the external `globset` crate for the patterns the analyzer uses
(`*` and `**` match any character sequence, `?` one character, everything
else literally).  Fuel-free: recursion is lexicographic on
(pattern, string). -/
def globMatch : List Char → List Char → Bool
  | [], [] => true
  | [], _ :: _ => false
  | '*' :: ps, [] => globMatch ps []
  | '*' :: ps, c :: cs => globMatch ps (c :: cs) || globMatch ('*' :: ps) cs
  | '?' :: _, [] => false
  | '?' :: ps, _ :: cs => globMatch ps cs
  | _ :: _, [] => false
  | p :: ps, c :: cs => decide (p = c) && globMatch ps cs

/-- Models `is_ignored` from `src/lib.rs`: a path is ignored when it matches any
of the configured glob patterns. -/
def isIgnored (path : String) (ignored_patterns : List String) : Bool :=
  ignored_patterns.any fun pat => globMatch pat.toList path.toList

/-- Models `char::to_lowercase` on the ASCII range (extensions are ASCII). -/
def rustCharToLower (c : Char) : Char :=
  if 'A' ≤ c ∧ c ≤ 'Z' then Char.ofNat (c.toNat + 32) else c

/-- Models `str::to_lowercase` on the ASCII range. -/
def rustToLower (s : String) : String :=
  String.mk (s.toList.map rustCharToLower)

/-- Models `normalize_language_extension` from `src/lib.rs` (its `match` on the
lowercased extension, written as an equality chain). -/
def normalizeLanguageExtension (ext : String) : String :=
  let e := rustToLower ext
  if e = "js" || e = "mjs" || e = "cjs" then "js"
  else if e = "ts" || e = "tsx" || e = "mts" then "ts"
  else if e = "md" || e = "markdown" then "md"
  else if e = "1" then "man"
  else if e = "bsd" then "config"
  else if e = "flow" then "type_def"
  else if e = "bnf" then "grammar"
  else e

/-- Models `Path::extension`: the part of the file name after its last `.`, absent
when the file name has no `.` past its first character. -/
def extensionOf (path : String) : Option String :=
  let name := (path.toList.reverse.takeWhile fun c => c ≠ '/').reverse
  let revName := name.reverse
  if revName.contains '.' then
    match revName.dropWhile fun c => c ≠ '.' with
    | [_] => none
    | _ :: _ :: _ => some (String.mk (revName.takeWhile fun c => c ≠ '.').reverse)
    | [] => none
  else none

/-! ## `ProjectInsights` and project aggregation (`src/lib.rs`) -/

/-- Models `ProjectInsights` from `src/lib.rs`.  The two `HashMap`s are modelled
as association lists (insertion order; a `HashMap` is this map up to
bucket order, which no claim depends on), and the timestamp abstractly. -/
structure ProjectInsights where
  files_analyzed : Nat
  total_lines : Nat
  language_distribution : List (String × Nat)
  file_metrics : List (String × CodeMetrics)
  security_summary : List SecurityIssue
  analysis_timestamp : Nat
deriving Repr, DecidableEq

/-- Models `ProjectInsights::new` at an abstract creation timestamp. -/
def ProjectInsights.empty (now : Nat) : ProjectInsights :=
  ⟨0, 0, [], [], [], now⟩

/-- Models `HashMap::insert`: replace the value when the key is present, otherwise
add the binding. -/
def hmInsert {β : Type} (m : List (String × β)) (k : String) (v : β) :
    List (String × β) :=
  if m.any fun kv => kv.1 = k then
    m.map fun kv => if kv.1 = k then (k, v) else kv
  else m ++ [(k, v)]

/-- Models `*map.entry(k).or_insert(0) += 1`. -/
def hmBump (m : List (String × Nat)) (k : String) : List (String × Nat) :=
  if m.any fun kv => kv.1 = k then
    m.map fun kv => if kv.1 = k then (kv.1, kv.2 + 1) else kv
  else m ++ [(k, 1)]

/-- Models `HashMap` key lookup (first matching binding). -/
def hmLookup {β : Type} (m : List (String × β)) (k : String) : Option β :=
  match m with
  | [] => none
  | kv :: rest => if kv.1 = k then some kv.2 else hmLookup rest k

/-- What the file system yields for one path: the `fs::metadata` result,
and the `fs::read_to_string` result (`none` models a read failure or
non-UTF-8 content, which `analyze_file` skips). -/
structure FileData where
  meta : FileMeta
  content : Option String

/-- A pure file-system environment: `none` models a path whose metadata
cannot be read (`fs::metadata` returns `Err`). -/
def FsEnv : Type := String → Option FileData

/-- The error cases of `DevFlowError` exercised here: I/O (failed metadata
or content read), poisoned lock, semantic-analysis failure, AI failure. -/
inductive DevFlowErr where
  | ioErr
  | threadErr
  | semanticErr
  | aiErr
deriving Repr, DecidableEq

/-- Models `analyze_file` from `src/lib.rs` (lines 185-263) over a pure
file-system environment: skip too-large, ignored and unreadable-content
files returning the insights unchanged; return an error when metadata
cannot be read; otherwise compute metrics and fold them into the insights
under the aggregation lock. -/
def analyzeFile (fs : FsEnv) (config : AppConfig) (path : String)
    (insights : ProjectInsights) : Except DevFlowErr ProjectInsights :=
  match fs path with
  | none => .error .ioErr
  | some fd =>
    if fd.meta.len > config.max_file_size then .ok insights
    else if isIgnored path config.ignored_patterns then .ok insights
    else
      match fd.content with
      | none => .ok insights
      | some content =>
        let lines := rustLines content
        let metrics := calculateMetrics fd.meta content config
        let language :=
          normalizeLanguageExtension ((extensionOf path).getD "unknown")
        let security := checkSecurityIssues lines config
        .ok { files_analyzed := insights.files_analyzed + 1
              total_lines := insights.total_lines + lines.length
              language_distribution :=
                hmBump insights.language_distribution language
              file_metrics := hmInsert insights.file_metrics path metrics
              security_summary := insights.security_summary ++ security
              analysis_timestamp := insights.analysis_timestamp }

/-- The fold of `analyze_codebase` over the walked files: `try_for_each`
aborts the whole run at the first per-file error (modelled in walk order;
rayon runs it in parallel, but an `Err` from any file makes the whole call
return `Err`, which is the property at issue). -/
def analyzeCodebaseGo (fs : FsEnv) (config : AppConfig) :
    List String → ProjectInsights → Except DevFlowErr ProjectInsights
  | [], insights => .ok insights
  | p :: rest, insights =>
    match analyzeFile fs config p insights with
    | .ok insights2 => analyzeCodebaseGo fs config rest insights2
    | .error e => .error e

/-- Models `analyze_codebase` from `src/lib.rs` (lines 111-145) on the list of
walked file paths. -/
def analyzeCodebase (fs : FsEnv) (config : AppConfig)
    (paths : List String) (now : Nat) : Except DevFlowErr ProjectInsights :=
  analyzeCodebaseGo fs config paths (ProjectInsights.empty now)

/-! ## The worker pipeline (`src/analysis/pipeline.rs`) -/

/-- Models `AnalysisResult` from `src/analysis/pipeline.rs`.  The semantic
`Context` (the `Analyzer`/`Context` revision re-exported by
`src/analysis/mod.rs` is not under `src/`; the worker only ever builds
`Context::default()` for placeholders) and the `AIAnalysisResult` payload
are abstract tokens, with `0` as the default context. -/
structure PipelineAnalysisResult where
  file_path : String
  semantic_context : Nat
  ai_insights : Option Nat
deriving Repr, DecidableEq

/-- The placeholder `AnalysisResult` the worker inserts when
`process_file` fails: the path, `Context::default()`, no AI insights. -/
def placeholderResult (path : String) : PipelineAnalysisResult :=
  ⟨path, 0, none⟩

/-- The shared state mutated by pipeline workers: the `DashMap` result
cache and the two atomic counters of `Stats`. -/
structure WorkerSharedState where
  cache : List (String × PipelineAnalysisResult)
  files_processed : Nat
  errors : Nat
deriving Repr, DecidableEq

/-- The receive loop of `Worker::start` for one worker draining the queue,
parameterized by the outcome of `Worker::process_file` on each path:
skip paths already cached; on success insert the result and bump
`files_processed`; on failure bump `errors` and `files_processed` and
insert the placeholder; in every case continue with the next path. -/
def workerDrain
    (outcome : String → Except DevFlowErr PipelineAnalysisResult) :
    List String → WorkerSharedState → WorkerSharedState
  | [], s => s
  | p :: rest, s =>
    if s.cache.any fun kv => kv.1 = p then workerDrain outcome rest s
    else
      match outcome p with
      | .ok r =>
        workerDrain outcome rest
          ⟨hmInsert s.cache p r, s.files_processed + 1, s.errors⟩
      | .error _ =>
        workerDrain outcome rest
          ⟨hmInsert s.cache p (placeholderResult p),
            s.files_processed + 1, s.errors + 1⟩

/-- Worker control points in the interleaved model of `Worker::start`:
between `recv` and the `cache.contains_key` check, and between that check
and the insert/increment. -/
inductive WorkerPC where
  | waiting
  | received (p : String)
  | checkedAbsent (p : String)
deriving Repr, DecidableEq

/-- Global state of the pipeline under concurrent workers.  `overwrites`
is a ghost counter of `DashMap::insert` calls that replaced an existing
entry (`insert` returning `Some(old)`). -/
structure PipelineRaceState where
  queue : List String
  cache : List (String × PipelineAnalysisResult)
  files_processed : Nat
  errors : Nat
  overwrites : Nat
  workers : List WorkerPC
deriving Repr, DecidableEq

/-- Interleaving small-step semantics of the worker loop in
`Worker::start` (`src/analysis/pipeline.rs` lines 175-219).  A worker
receives a path from the shared channel, then checks
`cache.contains_key`, and only afterwards — in a separate step, as in the
source, where `process_file` runs between the check and the insert —
inserts the result and bumps the counters.  Other workers may interleave
between the check and the insert. -/
inductive PipelineStep : PipelineRaceState → PipelineRaceState → Prop where
  | recv (s : PipelineRaceState) (i : Nat) (p : String) (rest : List String)
      (hw : s.workers[i]? = some .waiting) (hq : s.queue = p :: rest) :
      PipelineStep s
        { s with queue := rest, workers := s.workers.set i (.received p) }
  | checkHit (s : PipelineRaceState) (i : Nat) (p : String)
      (hw : s.workers[i]? = some (.received p))
      (hc : (s.cache.any fun kv => kv.1 = p) = true) :
      PipelineStep s { s with workers := s.workers.set i .waiting }
  | checkMiss (s : PipelineRaceState) (i : Nat) (p : String)
      (hw : s.workers[i]? = some (.received p))
      (hc : (s.cache.any fun kv => kv.1 = p) = false) :
      PipelineStep s
        { s with workers := s.workers.set i (.checkedAbsent p) }
  | finishOk (s : PipelineRaceState) (i : Nat) (p : String)
      (r : PipelineAnalysisResult)
      (hw : s.workers[i]? = some (.checkedAbsent p)) :
      PipelineStep s
        { s with
          cache := hmInsert s.cache p r
          files_processed := s.files_processed + 1
          overwrites := s.overwrites +
            (if s.cache.any fun kv => kv.1 = p then 1 else 0)
          workers := s.workers.set i .waiting }
  | finishErr (s : PipelineRaceState) (i : Nat) (p : String)
      (hw : s.workers[i]? = some (.checkedAbsent p)) :
      PipelineStep s
        { s with
          cache := hmInsert s.cache p (placeholderResult p)
          files_processed := s.files_processed + 1
          errors := s.errors + 1
          overwrites := s.overwrites +
            (if s.cache.any fun kv => kv.1 = p then 1 else 0)
          workers := s.workers.set i .waiting }

/-- Reachability under interleaved worker steps. -/
def PipelineReach : PipelineRaceState → PipelineRaceState → Prop :=
  Relation.ReflTransGen PipelineStep

/-! ## Pipeline construction (`src/analysis/pipeline.rs` lines 75-145) -/

/-- The AI provider held by a pipeline: the `CodeLLamaProvider` built by
`Pipeline::new`, or an arbitrary caller-supplied trait object. -/
inductive AIProviderSpec where
  | codeLLama (api_key base_url model : String) (max_concurrent : Nat)
  | custom (id : Nat)
deriving Repr, DecidableEq

/-- The observable initial state of a constructed `Pipeline`: empty cache,
zeroed stats, and its provider. -/
structure PipelineModel where
  cache : List (String × PipelineAnalysisResult)
  files_processed : Nat
  errors : Nat
  provider : AIProviderSpec
deriving Repr, DecidableEq

/-- Models `Pipeline::new`, over the value of the `TOGETHER_API_KEY` environment
variable; `none` output models the `.expect(...)` panic when the variable
is unset. -/
def pipelineNew (envTogetherApiKey : Option String) : Option PipelineModel :=
  match envTogetherApiKey with
  | none => none
  | some key =>
    some ⟨[], 0, 0,
      .codeLLama key "https://api.together.xyz/v1"
        "codellama/CodeLlama-34b-Instruct-hf" 10⟩

/-- Models `Pipeline::new_with_provider`: total, never reads the environment. -/
def pipelineNewWithProvider (provider : AIProviderSpec) : PipelineModel :=
  ⟨[], 0, 0, provider⟩

/-- Models `Pipeline::default`, which just delegates to `Pipeline::new`. -/
def pipelineDefault (envTogetherApiKey : Option String) :
    Option PipelineModel :=
  pipelineNew envTogetherApiKey

/-! ## The AI retry loop (`src/ai/llama.rs` lines 8-10 and 112-163) -/

/-- Models `MAX_RETRIES` from `src/ai/llama.rs`. -/
def MAX_RETRIES : Nat := 3

/-- Models `RETRY_DELAY_MS` from `src/ai/llama.rs`. -/
def RETRY_DELAY_MS : Nat := 1000

/-- Models `RATE_LIMIT_DELAY_MS` from `src/ai/llama.rs`. -/
def RATE_LIMIT_DELAY_MS : Nat := 2000

/-- One run of the retry loop of `Coder::analyze_code`: the final result,
the number of `make_api_request` attempts made, and the sleeps performed
between attempts, in order. -/
structure RetryRun (α : Type) where
  result : Except String α
  attempts : Nat
  delays : List Nat
deriving Repr

/-- The retry loop of `Coder::analyze_code`, with the outcome of the k-th
`make_api_request` attempt (0-based) given by `outcomes k` and errors
modelled by their display text.  `retries` starts at 0 and the loop gives
up once `retries >= MAX_RETRIES`, so the fuel `MAX_RETRIES` makes the
zero-fuel case unreachable (each recursive call increments `retries` and
decrements fuel, starting from `fuel = MAX_RETRIES`, `retries = 0`). -/
def analyzeCodeF {α : Type} (outcomes : Nat → Except String α) :
    Nat → Nat → List Nat → RetryRun α
  | fuel, retries, delays =>
    match outcomes retries with
    | .ok v => ⟨.ok v, retries + 1, delays.reverse⟩
    | .error e =>
      if retries ≥ MAX_RETRIES then ⟨.error e, retries + 1, delays.reverse⟩
      else
        match fuel with
        | 0 => ⟨.error e, retries + 1, delays.reverse⟩
        | fuel' + 1 =>
          analyzeCodeF outcomes fuel' (retries + 1)
            ((if containsSub "rate limiting" e then RATE_LIMIT_DELAY_MS
              else RETRY_DELAY_MS) :: delays)

/-- Retry behaviour of `Coder::analyze_code` from a fresh call. -/
def analyzeCodeRetry {α : Type} (outcomes : Nat → Except String α) :
    RetryRun α :=
  analyzeCodeF outcomes MAX_RETRIES 0 []

/-! ## Line classification predicates (for the claims about
`calculate_metrics`) -/

/-- A line is blank when its trimmed form is empty. -/
def isBlankLine (line : String) : Bool :=
  rustTrim line = ""

/-- A line is a comment when its trimmed form starts with a line- or
block-comment marker. -/
def isCommentLine (line : String) : Bool :=
  rustStartsWith "//" (rustTrim line) || rustStartsWith "#" (rustTrim line)
    || rustStartsWith "/*" (rustTrim line)

/-- A line of code: neither blank nor a comment. -/
def isCodeLine (line : String) : Bool :=
  !isBlankLine line && !isCommentLine line

/-! # Theorems -/

/-! ## C8: severity filtering -/

/-- Claim C8: every security finding returned by `check_security_issues`
has severity at or above the configured minimum severity; in particular
with `min_severity = Medium` no `Low` finding is reported, for any
input. -/
theorem checkSecurityIssues_respects_min_severity
    (lines : List String) (config : AppConfig) (issue : SecurityIssue)
    (h : issue ∈ checkSecurityIssues lines config) :
    sevLe config.min_severity issue.severity = true ∧
      (config.min_severity = .Medium → issue.severity ≠ .Low) := by
  unfold checkSecurityIssues at h
  have h2 := (List.mem_filter.mp h).2
  refine ⟨h2, ?_⟩
  intro hmed hlow
  rw [hmed, hlow] at h2
  exact absurd h2 (by decide)

/-- Witness for C8 at a concrete input: the hardcoded-secret finding for
`"password = 1"` is in the output under `min_severity = Medium`, and the
theorem applies to it. -/
theorem checkSecurityIssues_respects_min_severity_witness :
    (⟨.High, "Potential hardcoded secret found at line 1: password = 1",
        some 1⟩ : SecurityIssue) ∈
      checkSecurityIssues ["password = 1"] ⟨1024, [], [], .Medium⟩ ∧
    (sevLe IssueSeverity.Medium IssueSeverity.High = true ∧
      (IssueSeverity.Medium = IssueSeverity.Medium →
        IssueSeverity.High ≠ IssueSeverity.Low)) :=
  ⟨by decide,
    checkSecurityIssues_respects_min_severity ["password = 1"]
      ⟨1024, [], [], .Medium⟩
      ⟨.High, "Potential hardcoded secret found at line 1: password = 1",
        some 1⟩ (by decide)⟩

/-! ## C6: where security findings come from

`check_security_issues` never reads `config.security_patterns`: the
findings come from the fixed built-in substring checks, and only
`min_severity` influences the output. -/

/-- Counterexample to C6: with `security_patterns = []` (so no finding can
arise from a match against the configured pattern list) the scan still
reports a finding for `"password = 1"`. -/
theorem checkSecurityIssues_ignores_patterns_counterexample :
    (⟨1024, [], [], .Low⟩ : AppConfig).security_patterns = [] ∧
    checkSecurityIssues ["password = 1"] ⟨1024, [], [], .Low⟩ ≠ [] := by
  constructor
  · rfl
  · decide

/-- Claim C6 as amended: the findings of `check_security_issues` are
produced by fixed hardcoded checks and do not depend on the configured
`security_patterns` (nor any other field except `min_severity`): two
configurations with the same `min_severity` yield identical findings on
every input. -/
theorem checkSecurityIssues_depends_only_on_min_severity
    (lines : List String) (c1 c2 : AppConfig)
    (h : c1.min_severity = c2.min_severity) :
    checkSecurityIssues lines c1 = checkSecurityIssues lines c2 := by
  unfold checkSecurityIssues
  rw [h]

/-- Witness for the amended C6: two configurations that differ in their
`security_patterns` (one empty, one the default list) produce the same
findings. -/
theorem checkSecurityIssues_depends_only_on_min_severity_witness :
    (⟨1024, [], [], .Low⟩ : AppConfig).min_severity =
      (⟨0, ["**/target/**"], defaultSecurityPatterns, .Low⟩ :
        AppConfig).min_severity ∧
    checkSecurityIssues ["eval(x)"] ⟨1024, [], [], .Low⟩ =
      checkSecurityIssues ["eval(x)"]
        ⟨0, ["**/target/**"], defaultSecurityPatterns, .Low⟩ :=
  ⟨rfl,
    checkSecurityIssues_depends_only_on_min_severity ["eval(x)"] _ _ rfl⟩

/-! ## C4: line classification in `calculate_metrics` -/

/-- A blank line cannot also be a comment line: no marker is a prefix of
the empty trimmed form. -/
theorem blank_not_comment (line : String) (h : rustTrim line = "") :
    isCommentLine line = false := by
  unfold isCommentLine
  rw [h]
  decide

/-- The classification loop of `calculate_metrics`: the first component
counts every line, the second the blank lines, the third the comment
lines. -/
theorem lineCounts_eq (lines : List String) :
    lineCounts lines =
      (lines.length, (lines.filter isBlankLine).length,
        (lines.filter isCommentLine).length) := by
  induction lines with
  | nil => rfl
  | cons line rest ih =>
    by_cases hb : rustTrim line = ""
    · have hc := blank_not_comment line hb
      simp [lineCounts, hb, ih, List.filter_cons, isBlankLine, hc]
    · by_cases hcm : (rustStartsWith "//" (rustTrim line)
          || rustStartsWith "#" (rustTrim line)
          || rustStartsWith "/*" (rustTrim line)) = true
      · simp [lineCounts, hb, hcm, ih, List.filter_cons, isBlankLine,
          isCommentLine]
      · simp [lineCounts, hb, hcm, ih, List.filter_cons, isBlankLine,
          isCommentLine]

/-- Counterexample to C4: `lines_of_code` does not count only the lines
that are neither blank nor comment.  On `"x\n\n// c"` (one code line, one
blank line, one comment line) the reported `lines_of_code` is 3, while
the number of code lines is 1: the source increments `lines_of_code` for
every line, outside the classification branches. -/
theorem calculateMetrics_loc_counts_all_lines_counterexample :
    (calculateMetrics ⟨7, 0⟩ "x\n\n// c" ⟨1024, [], [], .Low⟩).lines_of_code
      = 3 ∧
    ((rustLines "x\n\n// c").filter isCodeLine).length = 1 ∧ (3 : Nat) ≠ 1 :=
  ⟨by decide, by decide, by decide⟩

/-- Claim C4 as amended: each line is classified as exactly one of blank
(trims to empty), comment (trimmed form starts with a comment marker) or
code, and `blank_lines`/`comment_lines` count those classes — but
`lines_of_code` counts *every* line of the file, comments and blanks
included, not only the code lines. -/
theorem calculateMetrics_line_classification (meta : FileMeta)
    (content : String) (config : AppConfig) :
    (calculateMetrics meta content config).lines_of_code
      = (rustLines content).length ∧
    (calculateMetrics meta content config).blank_lines
      = ((rustLines content).filter isBlankLine).length ∧
    (calculateMetrics meta content config).comment_lines
      = ((rustLines content).filter isCommentLine).length ∧
    ∀ line : String,
      cond (isBlankLine line) 1 0 + cond (isCommentLine line) 1 0
        + cond (isCodeLine line) 1 0 = 1 := by
  refine ⟨?_, ?_, ?_, ?_⟩
  · simp [calculateMetrics, lineCounts_eq]
  · simp [calculateMetrics, lineCounts_eq]
  · simp [calculateMetrics, lineCounts_eq]
  · intro line
    by_cases hb : isBlankLine line
    · have hb2 : rustTrim line = "" := by
        simpa [isBlankLine] using hb
      have hc := blank_not_comment line hb2
      simp [hb, hc, isCodeLine]
    · by_cases hc : isCommentLine line <;> simp [hb, hc, isCodeLine]

/-! ## C10: pipeline construction and the environment -/

/-- Claim C10: `Pipeline::new` (and hence `Pipeline::default`) panics
exactly when `TOGETHER_API_KEY` is unset, while
`Pipeline::new_with_provider` is total, never reads the environment, and
installs the given provider over empty initial state. -/
theorem pipelineNew_panics_iff_env_unset :
    (∀ env : Option String, pipelineNew env = none ↔ env = none) ∧
    (∀ env : Option String, pipelineDefault env = pipelineNew env) ∧
    (∀ provider : AIProviderSpec,
      pipelineNewWithProvider provider = ⟨[], 0, 0, provider⟩) := by
  refine ⟨?_, fun _ => rfl, fun _ => rfl⟩
  intro env
  cases env <;> simp [pipelineNew]

/-! ## C9: the retry policy of `Coder::analyze_code` -/

/-- The retry loop makes at most `retries + fuel + 1` attempts. -/
theorem analyzeCodeF_attempts_le {α : Type}
    (outcomes : Nat → Except String α) :
    ∀ (fuel retries : Nat) (delays : List Nat),
      (analyzeCodeF outcomes fuel retries delays).attempts
        ≤ retries + fuel + 1 := by
  intro fuel
  induction fuel with
  | zero =>
    intro retries delays
    unfold analyzeCodeF
    cases outcomes retries with
    | ok v => simp
    | error e => by_cases h : retries ≥ MAX_RETRIES <;> simp [h]
  | succ fuel ih =>
    intro retries delays
    unfold analyzeCodeF
    cases outcomes retries with
    | ok v => simp
    | error e =>
      by_cases h : retries ≥ MAX_RETRIES
      · simp [h]
      · simp only [h, if_false]
        calc (analyzeCodeF outcomes fuel (retries + 1) _).attempts
            ≤ retries + 1 + fuel + 1 := ih _ _
          _ ≤ retries + (fuel + 1) + 1 := by omega

/-- The outcome sequence of a provider that fails twice and then
succeeds. -/
def failTwiceOutcomes : Nat → Except String Nat :=
  fun k => if k < 2 then .error "server error" else .ok 7

/-- Claim C9: the retry loop of `analyze_code` retries a failed request at
most `MAX_RETRIES = 3` times (so at most 4 request attempts in total);
after a failure whose text indicates rate limiting it sleeps 2000 ms,
otherwise 1000 ms, before retrying; after exhausting the retries it
propagates the provider error; and a provider that fails twice and then
succeeds yields exactly 3 attempts with the populated result of the
third. -/
theorem analyzeCode_retry_policy :
    (∀ (α : Type) (outcomes : Nat → Except String α),
      (analyzeCodeRetry outcomes).attempts ≤ MAX_RETRIES + 1) ∧
    ((analyzeCodeRetry failTwiceOutcomes).result = .ok 7 ∧
      (analyzeCodeRetry failTwiceOutcomes).attempts = 3) ∧
    (analyzeCodeRetry (fun k => (.error (toString k) : Except String Nat))
      = ⟨.error "3", 4, [1000, 1000, 1000]⟩) ∧
    (analyzeCodeRetry (fun k =>
        if k = 0 then .error "rate limiting triggered"
        else (.ok 1 : Except String Nat))
      = ⟨.ok 1, 2, [RATE_LIMIT_DELAY_MS]⟩) ∧
    (analyzeCodeRetry (fun k =>
        if k = 0 then .error "connection reset"
        else (.ok 1 : Except String Nat))
      = ⟨.ok 1, 2, [RETRY_DELAY_MS]⟩) := by
  refine ⟨?_, ⟨?_, ?_⟩, ?_, ?_, ?_⟩
  · intro α outcomes
    simpa [MAX_RETRIES] using
      analyzeCodeF_attempts_le outcomes MAX_RETRIES 0 []
  · rfl
  · rfl
  · rfl
  · rfl
  · rfl

/-! ## C7: dependency extraction -/

/-- Models `strLe` as a relation. -/
def StrLeP (a b : String) : Prop := strLe a b = true

/-- Strict version of `StrLeP`. -/
def StrLtP (a b : String) : Prop := strLe a b = true ∧ a ≠ b

/-- Reflexivity of the lexicographic comparison. -/
theorem listLexLe_refl (l : List Char) : listLexLe l l = true := by
  induction l with
  | nil => rfl
  | cons a rest ih => simp [listLexLe, ih]

/-- Totality of the lexicographic comparison. -/
theorem listLexLe_total (as1 bs1 : List Char) :
    listLexLe as1 bs1 = true ∨ listLexLe bs1 as1 = true := by
  induction as1 generalizing bs1 with
  | nil => left; rfl
  | cons a as2 ih =>
    cases bs1 with
    | nil => right; rfl
    | cons b bs2 =>
      by_cases hab : a = b
      · subst hab
        simpa [listLexLe] using ih bs2
      · have hba : b ≠ a := fun e => hab e.symm
        rcases lt_or_gt_of_ne hab with h | h
        · left; simp [listLexLe, hab, h]
        · right; simp [listLexLe, hba, h]

/-- Transitivity of the lexicographic comparison. -/
theorem listLexLe_trans (as1 bs1 cs1 : List Char)
    (h1 : listLexLe as1 bs1 = true) (h2 : listLexLe bs1 cs1 = true) :
    listLexLe as1 cs1 = true := by
  induction as1 generalizing bs1 cs1 with
  | nil => rfl
  | cons a as2 ih =>
    cases bs1 with
    | nil => simp [listLexLe] at h1
    | cons b bs2 =>
      cases cs1 with
      | nil => simp [listLexLe] at h2
      | cons c cs2 =>
        by_cases hab : a = b <;> by_cases hbc : b = c
        · subst hab; subst hbc
          simp only [listLexLe, if_pos rfl] at h1 h2 ⊢
          exact ih bs2 cs2 h1 h2
        · subst hab
          simp [listLexLe, hbc] at h2 ⊢
          exact h2
        · subst hbc
          simp [listLexLe, hab] at h1 ⊢
          exact h1
        · simp [listLexLe, hab] at h1
          simp [listLexLe, hbc] at h2
          have hac : a < c := lt_trans h1 h2
          simp [listLexLe, ne_of_lt hac, hac]

/-- Antisymmetry of the lexicographic comparison. -/
theorem listLexLe_antisymm (as1 bs1 : List Char)
    (h1 : listLexLe as1 bs1 = true) (h2 : listLexLe bs1 as1 = true) :
    as1 = bs1 := by
  induction as1 generalizing bs1 with
  | nil =>
    cases bs1 with
    | nil => rfl
    | cons b bs2 => simp [listLexLe] at h2
  | cons a as2 ih =>
    cases bs1 with
    | nil => simp [listLexLe] at h1
    | cons b bs2 =>
      by_cases hab : a = b
      · subst hab
        simp only [listLexLe, if_pos rfl] at h1 h2
        rw [ih bs2 h1 h2]
      · have hba : b ≠ a := fun e => hab e.symm
        simp [listLexLe, hab] at h1
        simp [listLexLe, hba] at h2
        exact absurd h2 (not_lt_of_gt h1)

/-- Totality of `strLe`. -/
theorem strLe_total (a b : String) : strLe a b = true ∨ strLe b a = true :=
  listLexLe_total a.toList b.toList

/-- Transitivity of `strLe`. -/
theorem strLe_trans {a b c : String} (h1 : strLe a b = true)
    (h2 : strLe b c = true) : strLe a c = true :=
  listLexLe_trans a.toList b.toList c.toList h1 h2

/-- Antisymmetry of `strLe`. -/
theorem strLe_antisymm {a b : String} (h1 : strLe a b = true)
    (h2 : strLe b a = true) : a = b := by
  have h := listLexLe_antisymm a.toList b.toList h1 h2
  cases a; cases b
  simp only [String.toList] at h
  exact congrArg String.mk h

/-- Membership through one insertion step. -/
theorem mem_insertSorted (x y : String) (l : List String) :
    y ∈ insertSorted x l ↔ y = x ∨ y ∈ l := by
  induction l with
  | nil => simp [insertSorted]
  | cons z rest ih =>
    by_cases h : strLe x z = true
    · simp [insertSorted, h]
    · simp [insertSorted, h, ih]
      tauto

/-- Insertion preserves sortedness. -/
theorem pairwise_insertSorted (x : String) (l : List String)
    (h : l.Pairwise StrLeP) : (insertSorted x l).Pairwise StrLeP := by
  induction l with
  | nil => simp [insertSorted]
  | cons z rest ih =>
    rw [List.pairwise_cons] at h
    by_cases hxz : strLe x z = true
    · simp only [insertSorted, hxz, if_pos]
      refine List.Pairwise.cons ?_ (List.Pairwise.cons h.1 h.2)
      intro y hy
      rcases List.mem_cons.mp hy with rfl | hy2
      · exact hxz
      · exact strLe_trans hxz (h.1 y hy2)
    · simp only [insertSorted, hxz, if_neg, Bool.false_eq_true,
        not_false_eq_true]
      refine List.Pairwise.cons ?_ (ih h.2)
      intro y hy
      rcases (mem_insertSorted x y rest).mp hy with rfl | hy2
      · rcases strLe_total y z with h1 | h2
        · exact absurd h1 hxz
        · exact h2
      · exact h.1 y hy2

/-- The insertion sort produces a `strLe`-sorted list. -/
theorem pairwise_insertionSortStr (l : List String) :
    (insertionSortStr l).Pairwise StrLeP := by
  induction l with
  | nil => simp [insertionSortStr]
  | cons x rest ih => exact pairwise_insertSorted x _ ih

/-- Models `dedupConsecAux` only keeps elements of its input. -/
theorem mem_dedupConsecAux (x : String) :
    ∀ (l : List String) (p : String), x ∈ dedupConsecAux p l → x ∈ l := by
  intro l
  induction l with
  | nil => intro p h; simp [dedupConsecAux] at h
  | cons b rest ih =>
    intro p h
    by_cases hpb : p = b
    · rw [dedupConsecAux, if_pos hpb] at h
      exact List.mem_cons_of_mem b (ih p h)
    · rw [dedupConsecAux, if_neg hpb] at h
      rcases List.mem_cons.mp h with rfl | h2
      · exact List.mem_cons_self _ _
      · exact List.mem_cons_of_mem b (ih b h2)

/-- On a sorted list, dropping consecutive duplicates yields a strictly
sorted list. -/
theorem pairwise_dedupConsecAux :
    ∀ (l : List String) (a : String), (a :: l).Pairwise StrLeP →
      (a :: dedupConsecAux a l).Pairwise StrLtP := by
  intro l
  induction l with
  | nil =>
    intro a _
    simp [dedupConsecAux]
  | cons b rest ih =>
    intro a h
    rw [List.pairwise_cons] at h
    obtain ⟨ha, hbr⟩ := h
    by_cases hab : a = b
    · rw [dedupConsecAux, if_pos hab]
      have h2 : (a :: rest).Pairwise StrLeP := by
        rw [List.pairwise_cons]
        exact ⟨fun y hy => ha y (List.mem_cons_of_mem b hy),
          (List.pairwise_cons.mp hbr).2⟩
      exact ih a h2
    · rw [dedupConsecAux, if_neg hab]
      have hres := ih b hbr
      rw [List.pairwise_cons]
      refine ⟨?_, hres⟩
      intro y hy
      rcases List.mem_cons.mp hy with rfl | hy2
      · exact ⟨ha _ (List.mem_cons_self _ _), hab⟩
      · have hyr : y ∈ rest := mem_dedupConsecAux y rest b hy2
        refine ⟨ha y (List.mem_cons_of_mem b hyr), ?_⟩
        intro hay
        have hby : StrLeP b y := (List.pairwise_cons.mp hbr).1 y hyr
        have hba : strLe b a = true := hay ▸ hby
        exact hab (strLe_antisymm (ha b (List.mem_cons_self b rest)) hba)

/-- Models `dedupConsec` of a sorted list is strictly sorted. -/
theorem pairwise_dedupConsec (l : List String) (h : l.Pairwise StrLeP) :
    (dedupConsec l).Pairwise StrLtP := by
  cases l with
  | nil => simp [dedupConsec]
  | cons a rest => exact pairwise_dedupConsecAux rest a h

/-- Counterexample to C7: on the single-segment import `use foo;` the
extractor keeps the statement terminator — the collected entry is
`"foo;"`, not the path segment `foo`. -/
theorem extractDependencies_counterexample :
    extractDependencies "use foo;" = ["foo;"] ∧
      (["foo;"] : List String) ≠ ["foo"] :=
  ⟨by decide, by decide⟩

/-- Claim C7 as amended: for each `use` line the extractor collects the
text after `use ` up to the first `::` (which retains trailing
punctuation for single-segment imports such as `use foo;`, and is the
first path segment for multi-segment imports such as `use foo::bar;`);
the returned list is always lexicographically sorted and duplicate-free,
and rerunning on identical content yields the identical list. -/
theorem extractDependencies_sorted_nodup :
    (∀ content : String,
      (extractDependencies content).Pairwise StrLeP ∧
        (extractDependencies content).Nodup) ∧
    (∀ content : String,
      extractDependencies content = extractDependencies content) ∧
    extractDependencies "use foo::bar;\nuse beta::x;\nuse foo::baz;"
      = ["beta", "foo"] := by
  refine ⟨?_, fun _ => rfl, by decide⟩
  intro content
  have hs := pairwise_insertionSortStr ((rustLines content).filterMap depOfLine)
  have hd := pairwise_dedupConsec _ hs
  exact ⟨hd.imp fun h => h.1, hd.imp fun h => h.2⟩

/-! ## C3: the `ProjectInsights` invariant of `analyze_file` -/

/-- The invariant of claim C3: `files_analyzed` equals the number of
entries of `file_metrics`, and `total_lines` is the sum of the
`lines_of_code` of those entries. -/
def InsightsInv (ins : ProjectInsights) : Prop :=
  ins.files_analyzed = ins.file_metrics.length ∧
  ins.total_lines = (ins.file_metrics.map fun kv => kv.2.lines_of_code).sum

/-- Insertion at a fresh key appends the binding. -/
theorem hmInsert_fresh {β : Type} (m : List (String × β)) (k : String)
    (v : β) (h : (m.any fun kv => kv.1 = k) = false) :
    hmInsert m k v = m ++ [(k, v)] := by
  simp [hmInsert, h]

/-- Models `lines_of_code` of `calculate_metrics` is the total number of lines. -/
theorem calculateMetrics_loc (meta : FileMeta) (content : String)
    (config : AppConfig) :
    (calculateMetrics meta content config).lines_of_code
      = (rustLines content).length := by
  simp [calculateMetrics, lineCounts_eq]

/-- Claim C3: a completed `analyze_file` call preserves the
`ProjectInsights` invariant, for a path not yet analyzed (as in any
`analyze_codebase` run, where the walker yields each file once); hence
the snapshot returned by `analyze_codebase` satisfies it. -/
theorem analyzeFile_preserves_invariant (fs : FsEnv) (config : AppConfig)
    (path : String) (ins ins' : ProjectInsights)
    (hinv : InsightsInv ins)
    (hfresh : (ins.file_metrics.any fun kv => kv.1 = path) = false)
    (hok : analyzeFile fs config path ins = .ok ins') :
    InsightsInv ins' := by
  unfold analyzeFile at hok
  cases hfs : fs path with
  | none => rw [hfs] at hok; exact absurd hok (by simp)
  | some fd =>
    rw [hfs] at hok
    dsimp only at hok
    by_cases h1 : fd.meta.len > config.max_file_size
    · rw [if_pos h1] at hok
      injection hok with h
      exact h ▸ hinv
    · rw [if_neg h1] at hok
      by_cases h2 : isIgnored path config.ignored_patterns = true
      · rw [if_pos h2] at hok
        injection hok with h
        exact h ▸ hinv
      · rw [if_neg h2] at hok
        cases hcon : fd.content with
        | none =>
          rw [hcon] at hok
          injection hok with h
          exact h ▸ hinv
        | some content =>
          rw [hcon] at hok
          simp only [Except.ok.injEq] at hok
          subst hok
          constructor
          · simp only [hmInsert_fresh _ _ _ hfresh, List.length_append,
              List.length_cons, List.length_nil]
            have h4 := hinv.1
            omega
          · simp only [hmInsert_fresh _ _ _ hfresh, List.map_append,
              List.sum_append, List.map_cons, List.map_nil, List.sum_cons,
              List.sum_nil, calculateMetrics_loc]
            have h3 := hinv.2
            omega

/-- A concrete file-system environment for the C3 witness. -/
def fsW : FsEnv := fun _ => some ⟨⟨10, 5⟩, some "let x = 1;"⟩

/-- A minimal configuration for witnesses. -/
def cfgW : AppConfig := ⟨100, [], [], .Low⟩

/-- The insights after analyzing `"a.rs"` from the empty state under
`fsW`/`cfgW`. -/
def insW : ProjectInsights :=
  ⟨1, 1, [("rs", 1)], [("a.rs", ⟨1, 0, 0, 10, [], [], 5, 10⟩)], [], 0⟩

/-- Witness for C3: a concrete completed `analyze_file` call from the
empty insights, whose result satisfies the invariant by the theorem. -/
theorem analyzeFile_preserves_invariant_witness :
    analyzeFile fsW cfgW "a.rs" (ProjectInsights.empty 0) = .ok insW ∧
      InsightsInv insW :=
  ⟨by decide,
    analyzeFile_preserves_invariant fsW cfgW "a.rs"
      (ProjectInsights.empty 0) insW ⟨rfl, rfl⟩ (by decide) (by decide)⟩

/-! ## C2: fault isolation -/

/-- The result cached by the worker for a path: the computed result on
success, the placeholder on failure. -/
def outcomeResult
    (outcome : String → Except DevFlowErr PipelineAnalysisResult)
    (p : String) : PipelineAnalysisResult :=
  match outcome p with
  | .ok r => r
  | .error _ => placeholderResult p

/-- Whether processing a path failed. -/
def outcomeFails
    (outcome : String → Except DevFlowErr PipelineAnalysisResult)
    (p : String) : Bool :=
  match outcome p with
  | .ok _ => false
  | .error _ => true

/-- On fresh distinct paths the worker loop processes every path: each
result (or placeholder) of each path is appended to the cache,
`files_processed` grows by the number of paths, and `errors` by the
number of failing paths. -/
theorem workerDrain_fresh
    (outcome : String → Except DevFlowErr PipelineAnalysisResult) :
    ∀ (paths : List String) (s : WorkerSharedState), paths.Nodup →
      (∀ p ∈ paths, (s.cache.any fun kv => kv.1 = p) = false) →
      workerDrain outcome paths s =
        ⟨s.cache ++ paths.map fun p => (p, outcomeResult outcome p),
          s.files_processed + paths.length,
          s.errors + (paths.filter fun p => outcomeFails outcome p).length⟩ := by
  intro paths
  induction paths with
  | nil => intro s _ _; simp [workerDrain]
  | cons p rest ih =>
    intro s hnd hfresh
    have hp := hfresh p (List.mem_cons_self p rest)
    have hnotin : p ∉ rest := (List.nodup_cons.mp hnd).1
    have hfresh2 : ∀ (cacheAdd : PipelineAnalysisResult) (q : String),
        q ∈ rest →
        (((s.cache ++ [(p, cacheAdd)]).any fun kv => kv.1 = q) = false) := by
      intro cacheAdd q hq
      have hq2 := hfresh q (List.mem_cons_of_mem p hq)
      have hpq : p ≠ q := fun e => hnotin (e ▸ hq)
      simp [List.any_append, hq2, hpq]
    have hnd2 := (List.nodup_cons.mp hnd).2
    rw [workerDrain, if_neg (by simp [hp])]
    cases hout : outcome p with
    | ok r =>
      dsimp only
      rw [hmInsert_fresh _ _ _ hp,
        ih ⟨s.cache ++ [(p, r)], s.files_processed + 1, s.errors⟩ hnd2
          (fun q hq => hfresh2 r q hq)]
      simp only [WorkerSharedState.mk.injEq]
      refine ⟨?_, ?_, ?_⟩
      · simp [List.append_assoc, outcomeResult, hout]
      · simp only [List.length_cons]; omega
      · simp [List.filter_cons, outcomeFails, hout]
    | error e =>
      dsimp only
      rw [hmInsert_fresh _ _ _ hp,
        ih ⟨s.cache ++ [(p, placeholderResult p)], s.files_processed + 1,
            s.errors + 1⟩ hnd2
          (fun q hq => hfresh2 (placeholderResult p) q hq)]
      simp only [WorkerSharedState.mk.injEq]
      refine ⟨?_, ?_, ?_⟩
      · simp [List.append_assoc, outcomeResult, hout]
      · simp only [List.length_cons]; omega
      · simp only [List.filter_cons, outcomeFails, hout, if_pos,
          List.length_cons]
        omega

/-- Looking up a key of a key-indexed map of bindings. -/
theorem hmLookup_map_fn {β : Type} (f : String → β) :
    ∀ (paths : List String) (p : String), p ∈ paths →
      hmLookup (paths.map fun q => (q, f q)) p = some (f p) := by
  intro paths
  induction paths with
  | nil => intro p h; simp at h
  | cons q rest ih =>
    intro p hp
    by_cases hqp : q = p
    · subst hqp
      simp [hmLookup]
    · rcases List.mem_cons.mp hp with rfl | h2
      · exact absurd rfl hqp
      · rw [List.map_cons, hmLookup, if_neg (by simpa using hqp)]
        exact ih p h2

/-- Claim C2 as amended (worker pipeline, `Worker::start`): an error while
processing one file never aborts the worker loop — the path is still
cached (with the placeholder), the error counter counts exactly the
failing paths, and every other path is still processed to completion. -/
theorem workerDrain_fault_isolation
    (outcome : String → Except DevFlowErr PipelineAnalysisResult)
    (paths : List String) (hnd : paths.Nodup) :
    (∀ p ∈ paths,
      hmLookup (workerDrain outcome paths ⟨[], 0, 0⟩).cache p
        = some (outcomeResult outcome p)) ∧
    (workerDrain outcome paths ⟨[], 0, 0⟩).files_processed = paths.length ∧
    (workerDrain outcome paths ⟨[], 0, 0⟩).errors
      = (paths.filter fun p => outcomeFails outcome p).length ∧
    (∀ p ∈ paths, outcomeFails outcome p = true →
      hmLookup (workerDrain outcome paths ⟨[], 0, 0⟩).cache p
        = some (placeholderResult p)) := by
  have hrun := workerDrain_fresh outcome paths ⟨[], 0, 0⟩ hnd
    (fun p _ => rfl)
  rw [hrun]
  refine ⟨?_, by simp, by simp, ?_⟩
  · intro p hp
    simpa using hmLookup_map_fn (outcomeResult outcome) paths p hp
  · intro p hp hf
    have h1 := hmLookup_map_fn (outcomeResult outcome) paths p hp
    have h2 : outcomeResult outcome p = placeholderResult p := by
      unfold outcomeResult
      unfold outcomeFails at hf
      cases hout : outcome p with
      | ok r => rw [hout] at hf; simp at hf
      | error e => rfl
    simpa [h2] using h1

/-- The processing outcome for the C2 witness: `b.rs` fails, the others
succeed. -/
def outcomeW : String → Except DevFlowErr PipelineAnalysisResult :=
  fun p => if p = "b.rs" then .error .semanticErr else .ok ⟨p, 1, some 2⟩

/-- Witness for the amended C2 on a concrete run: three distinct paths of
which the middle one fails. -/
theorem workerDrain_fault_isolation_witness :
    (["a.rs", "b.rs", "c.rs"] : List String).Nodup ∧
    ((∀ p ∈ (["a.rs", "b.rs", "c.rs"] : List String),
      hmLookup (workerDrain outcomeW ["a.rs", "b.rs", "c.rs"]
          ⟨[], 0, 0⟩).cache p = some (outcomeResult outcomeW p)) ∧
    (workerDrain outcomeW ["a.rs", "b.rs", "c.rs"]
        ⟨[], 0, 0⟩).files_processed = (["a.rs", "b.rs", "c.rs"] : List String).length ∧
    (workerDrain outcomeW ["a.rs", "b.rs", "c.rs"] ⟨[], 0, 0⟩).errors
      = ((["a.rs", "b.rs", "c.rs"] : List String).filter
          fun p => outcomeFails outcomeW p).length ∧
    (∀ p ∈ (["a.rs", "b.rs", "c.rs"] : List String),
      outcomeFails outcomeW p = true →
      hmLookup (workerDrain outcomeW ["a.rs", "b.rs", "c.rs"]
          ⟨[], 0, 0⟩).cache p = some (placeholderResult p))) :=
  ⟨by decide,
    workerDrain_fault_isolation outcomeW ["a.rs", "b.rs", "c.rs"]
      (by decide)⟩

/-- A file system on which `bad.rs` has unreadable metadata and every
other path is a small readable file. -/
def fsCrash : FsEnv := fun p =>
  if p = "bad.rs" then none else some ⟨⟨10, 0⟩, some "fn main()"⟩

/-- Counterexample to C2 for `analyze_codebase` (`src/lib.rs`): an error
on a single file *does* abort the whole run there.  With a two-file
corpus whose first file has unreadable metadata, the run returns an I/O
error — no error counter exists, the file is inserted nowhere, and the
results of the healthy second file are lost — while the same run on the
healthy file alone succeeds. -/
theorem analyzeCodebase_aborts_on_metadata_error :
    analyzeCodebase fsCrash ⟨100, [], [], .Low⟩ ["bad.rs", "ok.rs"] 0
      = .error .ioErr ∧
    (analyzeCodebase fsCrash ⟨100, [], [], .Low⟩ ["ok.rs"] 0).isOk
      = true :=
  ⟨by decide, by decide⟩

/-! ## C1: the dedupe race in `Worker::start`

The `cache.contains_key` check and the later `cache.insert` are separate
operations with `process_file` in between; two workers that both receive
the same path while neither has inserted yet both pass the check, so the
path is processed twice, `files_processed` is incremented twice, and the
second insert overwrites the cached result.  `DashMap` offers an atomic
insert-if-absent (`entry`), which the code does not use. -/

/-- Claim C1 (evidence of the code bug): there is an execution in which a
path submitted twice, with the first submission still in flight, ends
with `files_processed` incremented twice for that path and with the
cached result overwritten once after its first insertion — refuting both
the exactly-one-increment and the never-overwritten guarantee. -/
theorem pipeline_dedupe_race :
    ∃ final : PipelineRaceState,
      PipelineReach
        ⟨["a.rs", "a.rs"], [], 0, 0, 0, [.waiting, .waiting]⟩ final ∧
      final.files_processed = 2 ∧ final.overwrites = 1 ∧
      final.cache.map Prod.fst = ["a.rs"] := by
  refine ⟨⟨[], [("a.rs", ⟨"a.rs", 1, some 1⟩)], 2, 0, 1,
    [.waiting, .waiting]⟩, ?_, rfl, rfl, rfl⟩
  refine Relation.ReflTransGen.head
    (PipelineStep.recv _ 0 "a.rs" ["a.rs"] rfl rfl) ?_
  refine Relation.ReflTransGen.head
    (PipelineStep.recv _ 1 "a.rs" [] rfl rfl) ?_
  refine Relation.ReflTransGen.head
    (PipelineStep.checkMiss _ 0 "a.rs" rfl rfl) ?_
  refine Relation.ReflTransGen.head
    (PipelineStep.checkMiss _ 1 "a.rs" rfl rfl) ?_
  refine Relation.ReflTransGen.head
    (PipelineStep.finishOk _ 0 "a.rs" ⟨"a.rs", 1, some 1⟩ rfl) ?_
  refine Relation.ReflTransGen.head
    (PipelineStep.finishOk _ 1 "a.rs" ⟨"a.rs", 1, some 1⟩ rfl) ?_
  exact Relation.ReflTransGen.refl

/-! ## C5: what the reported complexity is -/

/-- Counterexample to C5: on a parseable one-function file with a single
`if`, the reported complexity is `1.1` — not a value obtainable by
accumulating `+1` per branching construct over a syntax tree (any such
accumulation is a natural number; the AST-based
`SemanticAnalyzer::calculate_complexity` gives `2` here).  The reported
value comes from substring counting times `0.1` plus `1.0`. -/
theorem complexity_not_ast_counterexample :
    (calculateMetrics ⟨30, 0⟩
        "fn f() \x7b if x \x7b 1 \x7d else \x7b 2 \x7d \x7d"
        ⟨1024, [], [], .Low⟩).complexity = 11 / 10 ∧
    (¬ ∃ n : Nat, ((11 : ℚ) / 10) = n) ∧
    calculateComplexityAst [RExpr.ifExpr] = 2 ∧
    ((11 : ℚ) / 10) ≠ ((2 : Nat) : ℚ) := by
  have ht : (calculateMetrics ⟨30, 0⟩
      "fn f() \x7b if x \x7b 1 \x7d else \x7b 2 \x7d \x7d"
      ⟨1024, [], [], .Low⟩).complexity_tenths = 11 := by decide
  refine ⟨?_, ?_, ?_, ?_⟩
  · rw [CodeMetrics.complexity, ht]
    norm_num
  · rintro ⟨n, hn⟩
    have h10 : (11 : ℚ) = 10 * n := by
      field_simp at hn
      linarith
    have h11 : (11 : Nat) = 10 * n := by exact_mod_cast h10
    omega
  · rfl
  · intro h
    have h20 : (11 : ℚ) = 20 := by
      field_simp at h
      linarith
    norm_num at h20

/-- Claim C5 as amended: the complexity reported in `CodeMetrics` is
`1.0 + 0.1 × (number of occurrences of the substrings "if ", "while ",
"for ", "match " in the whole content)` — plain substring counting, no
syntax tree; separately, the AST complexity of
`SemanticAnalyzer::calculate_complexity` is `1 +` one unit per
statement-level branching expression, where a `match` counts one unit
regardless of its number of arms and only plain block statements are
recursed into (one extra unit each), not the branches of conditionals. -/
theorem complexity_formula_amended :
    (∀ (meta : FileMeta) (content : String) (config : AppConfig),
      (calculateMetrics meta content config).complexity
        = (branchCount content : ℚ) * (1 / 10) + 1) ∧
    (∀ arms : Nat, calculateComplexityAst [RExpr.matchExpr arms] = 2) ∧
    calculateComplexityAst [RExpr.blockExpr [RExpr.ifExpr]] = 3 := by
  refine ⟨?_, ?_, ?_⟩
  · intro meta content config
    rw [CodeMetrics.complexity]
    show ((branchCount content + 10 : Nat) : ℚ) / 10 = _
    push_cast
    ring
  · intro arms
    simp [calculateComplexityAst, stmtsComplexity, exprComplexity]
  · simp [calculateComplexityAst, stmtsComplexity, exprComplexity]

end DevFlow
